import Mathlib

/-!
Shallow embedding of the timetable-reconciliation core of the
OpenTransitAndMobility repository (crates/deutsche_bahn), together with
proofs checking the natural-language specification against it.

Modelling conventions:
* `chrono::DateTime<Local>` values are modelled as `Int` seconds; a
  `chrono::Duration` is then an `Int` number of seconds, and
  `Duration::num_minutes()` is truncating division by 60
  (`Int.tdiv`, which rounds toward zero exactly like Rust's `/`).
* `HashMap<String, Arc<RwLock<TimetableStop>>>` is modelled as an
  association list `List (String × TimetableStop)`; the map's keys are
  unique in the running program, and no theorem below depends on
  anything more.
* Async/locking structure is erased: every operation is a pure function
  from state (plus the outcomes of the network fetches it performed) to
  state and result.
* Only the fields that the embedded operations read or write are kept on
  each struct (dropping e.g. `messages`, `wings`, `hidden`, which no
  embedded operation touches).
-/

namespace OpenTransit

/-- From `model/timetables.rs`: `enum EventStatus` (Planned / Added / Cancelled).
`Planned` is the `#[default]` variant. -/
inductive EventStatus
  | Planned
  | Added
  | Cancelled
deriving DecidableEq

/-- From `model/timetables.rs`: `struct ActualPathStop { status, name }`. -/
structure ActualPathStop where
  status : EventStatus
  name : String
deriving DecidableEq

/-- From `model/timetables.rs`: `struct Event`, restricted to the fields read or
written by the embedded operations.  Times are `Int` seconds. -/
structure Event where
  actual_path : List ActualPathStop := []
  actual_status : EventStatus := .Planned
  changed_distant_endpoint : Option String := none
  cancellation_time : Option Int := none
  changed_platform : Option String := none
  changed_path : Option (List String) := none
  changed_status : Option EventStatus := none
  changed_time : Option Int := none
  distant_change : Option String := none
  planned_platform : Option String := none
  planned_path : List String := []
  planned_status : Option EventStatus := none
  planned_time : Option Int := none
deriving DecidableEq

/-- From `model/timetables.rs`: `struct TimetableStop`; `id` is the stop's
`full_id_string()` (the derived string form used as the map key). -/
structure TimetableStop where
  id : String
  arrival : Option Event := none
  departure : Option Event := none
deriving DecidableEq

/-! ## Path reconciler (`Event::calculate_actual_path`) -/

/-- The inner `ck` scan of `calculate_actual_path`: index of the first
occurrence of `x` in `l` (the scan starts at the current read position,
so `l` is the suffix `changed_path[i..]`). -/
def firstIdx (l : List String) (x : String) : Option Nat :=
  match l with
  | [] => none
  | a :: rest => if a = x then some 0 else (firstIdx rest x).map (· + 1)

/-- The `pk`/`ck` double loop of `calculate_actual_path`, phrased on the
suffixes `planned_path[j..]` and `changed_path[i..]`: the first `pk`
(scanned upward) whose planned entry occurs in `changed`, paired with the
first occurrence index `ck`.  `none` corresponds to the `pk ==
planned_path.len()` sentinel (no re-synchronisation point exists). -/
def resync (planned changed : List String) : Option (Nat × Nat) :=
  match planned with
  | [] => none
  | p :: ps =>
    match firstIdx changed p with
    | some ck => some (0, ck)
    | none => (resync ps changed).map (fun pc => (pc.1 + 1, pc.2))

/-- The `while i < changed_path.len() || j < planned_path.len()` loop of
`Event::calculate_actual_path` (the `Some(changed_path)` branch), phrased
on the suffixes still to be consumed.  The loop's cases in source order:
changed exhausted → emit planned entry as Cancelled; planned exhausted →
emit changed entry as Added; equal heads → emit as Planned (kept);
otherwise find the re-synchronisation point `(pk, ck)`, emit
`planned[j..pk]` as Cancelled then `changed[i..ck]` as Added, and resume
there (when no resync point exists the sentinel consumes everything). -/
def reconcilePath (planned changed : List String) : List ActualPathStop :=
  match planned, changed with
  | [], [] => []
  | p :: ps, [] => ⟨.Cancelled, p⟩ :: reconcilePath ps []
  | [], c :: cs => ⟨.Added, c⟩ :: reconcilePath [] cs
  | p :: ps, c :: cs =>
    if c = p then ⟨.Planned, c⟩ :: reconcilePath ps cs
    else
      match hr : resync (p :: ps) (c :: cs) with
      | some (pk, ck) =>
        ((p :: ps).take pk).map (fun n => ⟨.Cancelled, n⟩)
          ++ ((c :: cs).take ck).map (fun n => ⟨.Added, n⟩)
          ++ reconcilePath ((p :: ps).drop pk) ((c :: cs).drop ck)
      | none =>
        (p :: ps).map (fun n => ⟨.Cancelled, n⟩) ++ (c :: cs).map (fun n => ⟨.Added, n⟩)
termination_by planned.length + changed.length
decreasing_by
  · simp
  · simp
  · simp; omega
  · have hfi : ∀ (l : List String) (x : String) (k : Nat),
        firstIdx l x = some k → l.get? k = some x := by
      intro l x
      induction l with
      | nil => intro k h; simp [firstIdx] at h
      | cons a rest ih =>
        intro k h
        by_cases hax : a = x
        · simp [firstIdx, hax] at h
          subst h; simp [hax]
        · simp [firstIdx, hax] at h
          obtain ⟨k', hk', rfl⟩ := h
          simpa using ih k' hk'
    have hrs : ∀ (pl ch : List String) (pk ck : Nat),
        resync pl ch = some (pk, ck) →
        ∃ x, pl.get? pk = some x ∧ ch.get? ck = some x := by
      intro pl
      induction pl with
      | nil => intro ch pk ck h; simp [resync] at h
      | cons q qs ih =>
        intro ch pk ck h
        simp only [resync] at h
        cases hf : firstIdx ch q with
        | some k =>
          rw [hf] at h
          simp at h
          obtain ⟨rfl, rfl⟩ := h
          exact ⟨q, by simp, hfi _ _ _ hf⟩
        | none =>
          rw [hf] at h
          simp at h
          obtain ⟨pk', hpk', rfl, rfl⟩ := h
          obtain ⟨x, h1, h2⟩ := ih ch pk' ck hpk'
          exact ⟨x, by simpa using h1, h2⟩
    obtain ⟨x, h1, h2⟩ := hrs _ _ _ _ hr
    have hpk : pk < (p :: ps).length := by
      by_contra hc
      rw [List.get?_eq_none.mpr (by omega)] at h1
      exact Option.noConfusion h1
    have hck : ck < (c :: cs).length := by
      by_contra hc
      rw [List.get?_eq_none.mpr (by omega)] at h2
      exact Option.noConfusion h2
    have hne : ¬ (pk = 0 ∧ ck = 0) := by
      rintro ⟨rfl, rfl⟩
      simp at h1 h2
      apply ‹¬ c = p›
      rw [h2, h1]
    simp only [List.length_drop, List.length_cons]
    simp only [List.length_cons] at hpk hck
    omega

/-- From `Event::calculate_actual_status`:
`actual_status = changed_status.unwrap_or(planned_status.unwrap_or(Planned))`. -/
def actualStatusOf (changed planned : Option EventStatus) : EventStatus :=
  changed.getD (planned.getD .Planned)

def Event.calculate_actual_status (e : Event) : Event :=
  { e with actual_status := actualStatusOf e.changed_status e.planned_status }

/-- From `Event::calculate_actual_path`: rebuild `actual_path`; if no changed
path is present the planned path is mirrored with every entry Planned. -/
def Event.calculate_actual_path (e : Event) : Event :=
  match e.changed_path with
  | some cp => { e with actual_path := reconcilePath e.planned_path cp }
  | none => { e with actual_path := e.planned_path.map (fun n => ⟨.Planned, n⟩) }

/-- From `Event::calculate_all` (status first, then path, as in the source). -/
def Event.calculate_all (e : Event) : Event :=
  e.calculate_actual_status.calculate_actual_path

/-- From `TimetableStop::calculate_all`. -/
def TimetableStop.calculate_all (s : TimetableStop) : TimetableStop :=
  { s with arrival := s.arrival.map Event.calculate_all,
           departure := s.departure.map Event.calculate_all }

def TimetableStop.arrival_path (s : TimetableStop) : Option (List ActualPathStop) :=
  s.arrival.map (·.actual_path)

def TimetableStop.departure_path (s : TimetableStop) : Option (List ActualPathStop) :=
  s.departure.map (·.actual_path)

/-- From `TimetableStop::status`: Cancelled dominates, then Added, else Planned. -/
def TimetableStop.status (s : TimetableStop) : EventStatus :=
  let arrival_status := (s.arrival.map (·.actual_status)).getD .Planned
  let departure_status := (s.departure.map (·.actual_status)).getD .Planned
  match arrival_status, departure_status with
  | .Cancelled, _ => .Cancelled
  | _, .Cancelled => .Cancelled
  | .Added, _ => .Added
  | _, .Added => .Added
  | _, _ => .Planned

/-- From `TimetableStop::is_added`: the arrival's planned status, falling back to
the departure's, matches `Some(Added)`. -/
def TimetableStop.isAdded (s : TimetableStop) : Bool :=
  ((s.arrival.bind (·.planned_status)).or
    (s.departure.bind (·.planned_status))) == some .Added

/-! ## Field-wise patching (`trait TimetableStopUpdate`, timetables.rs) -/

/-- From `chrono::Duration::num_minutes()`: whole minutes, truncated toward
zero, of a duration given in seconds (`Int.tdiv` is Rust's `/`). -/
def numMinutes (d : Int) : Int :=
  Int.tdiv d 60

/-- From `impl TimetableStopUpdate for String`: overwrite, report any change. -/
def updString (self other : String) : String × Bool :=
  if self ≠ other then (other, true) else (self, false)

/-- From `impl TimetableStopUpdate for EventStatus`: overwrite, report any change. -/
def updStatus (self other : EventStatus) : EventStatus × Bool :=
  if self ≠ other then (other, true) else (self, false)

/-- From `impl TimetableStopUpdate for DateTime<Local>`: always overwrite on
inequality, but report a change only when the new value is more than one
whole minute later than the old one (the difference is signed). -/
def updTime (self other : Int) : Int × Bool :=
  if self = other then (self, false)
  else (other, numMinutes (other - self) > 1)

/-- From `impl<T> TimetableStopUpdate for Option<T>`: an incoming `None` never
changes anything; an incoming `Some` against a cached `None` is taken over
and reported; otherwise the inner update decides. -/
def updOption {α : Type} (upd : α → α → α × Bool) :
    Option α → Option α → Option α × Bool
  | self, none => (self, false)
  | none, some o => (some o, true)
  | some s, some o =>
    let r := upd s o
    (some r.1, r.2)

/-- From `impl<T: Clone> TimetableStopUpdate for Vec<T>` (the heuristic the
source marks `TODO: better?`): replace only when the cached list is
strictly longer than the incoming one. -/
def updVec {α : Type} (self other : List α) : List α × Bool :=
  if self.length > other.length then (other, true) else (self, false)

/-- Lines 161–167 of `Event::timetablestop_update` — the revised-time
field: run the `Option<DateTime>` update, then, when a planned time and
the (updated) changed time are both present, keep the significance flag
only if the changed time is at least 5 whole minutes past the planned
time.  Returns the new `changed_time` and the field's significance. -/
def timeFieldUpdate (self other : Event) : Option Int × Bool :=
  let r := updOption updTime self.changed_time other.changed_time
  let significant :=
    match self.planned_time, r.1 with
    | some planned_time, some changed_time =>
      r.2 && decide (numMinutes (changed_time - planned_time) ≥ 5)
    | _, _ => r.2
  (r.1, significant)

def timeFieldSignificant (self other : Event) : Bool :=
  (timeFieldUpdate self other).2

/-- Lines 152–159 of `Event::timetablestop_update` — the revised-status
field's contribution to significance: the status must actually change and
the recomputed actual status must be Cancelled. -/
def statusFieldSignificant (self other : Event) : Bool :=
  let r := updOption updStatus self.changed_status other.changed_status
  if r.2 then actualStatusOf r.1 self.planned_status == .Cancelled else false

/-- From `impl TimetableStopUpdate for Event` (timetables.rs lines 124–174),
with the source's field order and significance rules:
endpoint/cancellation-time updates are applied but never significant; a
platform change is significant only if the new changed platform also
differs from the planned platform; a path change is always significant
and recomputes `actual_path`; a status change is significant only if the
recomputed actual status is Cancelled; the time field follows
`timeFieldUpdate`; `distant_change` is applied but never significant. -/
def Event.timetablestop_update (self other : Event) : Event × Bool :=
  let cde := updOption updString self.changed_distant_endpoint other.changed_distant_endpoint
  let clt := updOption updTime self.cancellation_time other.cancellation_time
  let cp := updOption updString self.changed_platform other.changed_platform
  let res := false
  let res :=
    if cp.2 then
      match cp.1, self.planned_platform with
      | some a, some b => res || decide (a ≠ b)
      | _, _ => res
    else res
  let cpth := updOption (updVec (α := String)) self.changed_path other.changed_path
  let e1 : Event :=
    { self with
      changed_distant_endpoint := cde.1
      cancellation_time := clt.1
      changed_platform := cp.1
      changed_path := cpth.1 }
  let res := res || cpth.2
  let e2 := if cpth.2 then e1.calculate_actual_path else e1
  let cs := updOption updStatus e2.changed_status other.changed_status
  let res := res || statusFieldSignificant e2 other
  let e3 : Event := { e2 with changed_status := cs.1 }
  let e4 := if cs.2 then e3.calculate_actual_status else e3
  let ct := timeFieldUpdate e4 other
  let res := res || ct.2
  let e5 : Event := { e4 with changed_time := ct.1 }
  let dc := updOption updString e5.distant_change other.distant_change
  ({ e5 with distant_change := dc.1 }, res)

/-- From `impl TimetableStopUpdate for TimetableStop`: update arrival and
departure (the source's `TODO: others!` leaves the rest untouched). -/
def TimetableStop.timetablestop_update (self other : TimetableStop) :
    TimetableStop × Bool :=
  let ar := updOption Event.timetablestop_update self.arrival other.arrival
  let dp := updOption Event.timetablestop_update self.departure other.departure
  ({ self with arrival := ar.1, departure := dp.1 }, ar.2 || dp.2)

/-! ## Station timetable cache (`TimetableNews`) -/

/-- From `const REMOVE_STOP_AFTER: i64 = 120` (minutes). -/
def REMOVE_STOP_AFTER : Int := 120

/-- From `is_event_outdated`: an event is outdated iff every present time
(planned, then changed) is strictly before `now - tolerance_minutes`. -/
def isEventOutdated (event : Event) (minutes_tolerance : Int) (now : Int) : Bool :=
  let cutoff := now - 60 * minutes_tolerance
  let planned_recent :=
    match event.planned_time with
    | some planned_time => decide (planned_time ≥ cutoff)
    | none => false
  let changed_recent :=
    match event.changed_time with
    | some changed_time => decide (changed_time ≥ cutoff)
    | none => false
  !planned_recent && !changed_recent

/-- From `is_stop_outdated`: both sides outdated, an absent side counting as
outdated. -/
def isStopOutdated (stop : TimetableStop) (minutes_tolerance : Int) (now : Int) : Bool :=
  let is_arrival_outdated :=
    (stop.arrival.map (fun arrival => isEventOutdated arrival minutes_tolerance now)).getD true
  let is_departure_outdated :=
    (stop.departure.map (fun departure => isEventOutdated departure minutes_tolerance now)).getD true
  is_arrival_outdated && is_departure_outdated

/-- From `enum UpdateResult<U, E>`. -/
inductive UpdateResult (U : Type) (E : Type)
  | ok (value : U)
  | okNoValues
  | errButValues (value : U) (err : E)
  | err (err : E)
deriving DecidableEq

/-- The mutable state of a `TimetableNews` (station timetable cache).
The stop map is an association list keyed by `full_id_string`. -/
structure TimetableNewsState where
  eva : Int
  station_name : String
  station_name_aliases : List String
  stops : List (String × TimetableStop) := []
  last_outdated_removed : Int := 0
  last_update : Option Int := none
  removed_stops : List TimetableStop := []
  unapplied_known_changes_cache : List TimetableStop := []
deriving DecidableEq

/-- Replace the value stored under `key` (`HashMap::get_mut` + in-place
write; keys are unique in the running map). -/
def assocUpdate (key : String) (v : TimetableStop)
    (m : List (String × TimetableStop)) : List (String × TimetableStop) :=
  m.map (fun p => if p.1 = key then (p.1, v) else p)

/-- The loop body of `TimetableNews::apply_updates`: walk the incoming
changes in order against the evolving stop map, producing the final map,
the list of significantly-updated (or newly added) stops, and the
changes that had to be cached because their stop is unknown and not
marked added.  Mirrors timetables.rs lines 467–497. -/
def applyUpdatesGo (stops : List (String × TimetableStop)) :
    List TimetableStop →
    List (String × TimetableStop) × List TimetableStop × List TimetableStop
  | [] => (stops, [], [])
  | stop_change :: rest =>
    match stops.lookup stop_change.id with
    | some stop =>
      /- change for a known trip: patch in place, report when significant -/
      let u := stop.timetablestop_update stop_change
      let r := applyUpdatesGo (assocUpdate stop_change.id u.1 stops) rest
      (r.1, (if u.2 then [u.1] else []) ++ r.2.1, r.2.2)
    | none =>
      if stop_change.isAdded then
        /- unknown trip but added: derive caches, insert, report -/
        let added := stop_change.calculate_all
        let r := applyUpdatesGo (stops ++ [(added.id, added)]) rest
        (r.1, added :: r.2.1, r.2.2)
      else
        /- unknown trip: cache the change for a later cycle -/
        let r := applyUpdatesGo stops rest
        (r.1, r.2.1, stop_change :: r.2.2)

/-- From `TimetableNews::apply_updates`: run the loop, then overwrite the
unapplied-changes cache with the changes that could not be applied. -/
def TimetableNewsState.apply_updates (st : TimetableNewsState)
    (changes : List TimetableStop) : TimetableNewsState × List TimetableStop :=
  let r := applyUpdatesGo st.stops changes
  ({ st with stops := r.1, unapplied_known_changes_cache := r.2.2 }, r.2.1)

/-- The loop-body check of `TimetableNews::remove_outdated`: a map entry
is collected for removal when neither its arrival nor its departure event
is present and recent (more recent than `REMOVE_STOP_AFTER` minutes ago). -/
def veryOutdated (now : Int) (p : String × TimetableStop) : Bool :=
  let is_arrival_current :=
    (p.2.arrival.map (fun arrival => !isEventOutdated arrival REMOVE_STOP_AFTER now)).getD false
  let is_departure_current :=
    (p.2.departure.map (fun departure => !isEventOutdated departure REMOVE_STOP_AFTER now)).getD false
  !is_arrival_current && !is_departure_current

/-- From `TimetableNews::remove_outdated`: collect the ids of every stop whose
arrival and departure are both more than `REMOVE_STOP_AFTER` minutes old
(an absent side counting as outdated), drop them from the stop map into
the removed-stops buffer, and stamp `last_outdated_removed`.  The
id-collection pass and the removal pass of the source collapse to filters
on the association list. -/
def TimetableNewsState.remove_outdated (st : TimetableNewsState) (now : Int) :
    TimetableNewsState :=
  let remove := (st.stops.filter (veryOutdated now)).map (·.1)
  let removed_stops := (st.stops.filter (fun p => remove.contains p.1)).map (·.2)
  { st with
    stops := st.stops.filter (fun p => !remove.contains p.1)
    removed_stops := st.removed_stops ++ removed_stops
    last_outdated_removed := now }

/-- From `TimetableNews::get_and_clear_removed_stops`. -/
def TimetableNewsState.get_and_clear_removed_stops (st : TimetableNewsState) :
    List TimetableStop × TimetableNewsState :=
  (st.removed_stops, { st with removed_stops := [] })

/-- The sort key of `TimetableNews::get_current`: the departure event if
present, else the arrival event; within the chosen event the planned
time, else the changed time; `now` whenever nothing applies. -/
def mostSignificantTime (now : Int) (stop : TimetableStop) : Int :=
  ((stop.departure.or stop.arrival).map (fun event =>
    (event.planned_time.or event.changed_time).getD now)).getD now

/-- The `sort_by` call of `get_current`.  Rust's `sort_by` is a stable
sort and the comparator is a total preorder on the key, so it is modelled
by the (stable) insertion sort. -/
def sortStops (now : Int) (stops : List TimetableStop) : List TimetableStop :=
  List.insertionSort
    (fun a b => mostSignificantTime now a ≤ mostSignificantTime now b) stops

/-- From `TimetableNews::get_current`: evict very outdated stops, collect the
map's values, filter out stops already 2 minutes outdated, and sort by
`mostSignificantTime`.  Returns the post-eviction state and the snapshot. -/
def TimetableNewsState.get_current (st : TimetableNewsState) (now : Int) :
    TimetableNewsState × List TimetableStop :=
  let st1 := st.remove_outdated now
  let current_stops := st1.stops.map (·.2)
  let current_stops := current_stops.filter (fun stop => !isStopOutdated stop 2 now)
  (st1, sortStops now current_stops)

/-- From `Duration::num_hours()` in the eviction gate of `get_updates`. -/
def numHours (d : Int) : Int :=
  Int.tdiv d 3600

/-- From `TimetableNews::get_updates` (timetables.rs lines 362–442), as a
function of the two fetch outcomes of the cycle.  `fetch_plan_result` is
the outcome of the plan-slice loop — its stop insertions are already
folded into `st`, matching the source where `fetch_plan` has mutated the
map before the match — and `get_known_changes_result` is the raw
known-changes fetch.  On a successful changes fetch `last_update` is
stamped (done inside `Self::get_known_changes` in the source).  After the
match, the eviction pass runs when the last one is at least 2 hours old. -/
def TimetableNewsState.get_updates (st : TimetableNewsState) (now : Int)
    (fetch_plan_result : UpdateResult Unit String)
    (get_known_changes_result : Except String (List TimetableStop)) :
    TimetableNewsState × UpdateResult (List TimetableStop) (List String) :=
  let withStamp : TimetableNewsState :=
    match get_known_changes_result with
    | .ok _ => { st with last_update := some now }
    | .error _ => st
  let r :
      TimetableNewsState × UpdateResult (List TimetableStop) (List String) :=
    match fetch_plan_result, get_known_changes_result with
    /- update if changes were successfully fetched (plan data maybe not) -/
    | .err why, .ok timetable_stops =>
      let a := withStamp.apply_updates timetable_stops
      if a.2.isEmpty then (a.1, .err [why]) else (a.1, .errButValues a.2 [why])
    | .errButValues _ why, .ok timetable_stops =>
      let a := withStamp.apply_updates timetable_stops
      if a.2.isEmpty then (a.1, .err [why]) else (a.1, .errButValues a.2 [why])
    | _, .ok timetable_stops =>
      let a := withStamp.apply_updates timetable_stops
      if a.2.isEmpty then (a.1, .okNoValues) else (a.1, .ok a.2)
    /- update from cache if changes could not be fetched, but plan data changed -/
    | .ok _, .error why =>
      let cached_updates := withStamp.unapplied_known_changes_cache
      let drained := { withStamp with unapplied_known_changes_cache := [] }
      let a := drained.apply_updates cached_updates
      (a.1, .errButValues a.2 [why])
    | .okNoValues, .error why =>
      let cached_updates := withStamp.unapplied_known_changes_cache
      let drained := { withStamp with unapplied_known_changes_cache := [] }
      let a := drained.apply_updates cached_updates
      (a.1, .errButValues a.2 [why])
    | .errButValues _ why1, .error why2 =>
      let cached_updates := withStamp.unapplied_known_changes_cache
      let drained := { withStamp with unapplied_known_changes_cache := [] }
      let a := drained.apply_updates cached_updates
      (a.1, .errButValues a.2 [why1, why2])
    /- nothing to update, only errors -/
    | .err why1, .error why2 => (withStamp, .err [why1, why2])
  let gated :=
    if numHours (now - r.1.last_outdated_removed) ≥ 2 then r.1.remove_outdated now
    else r.1
  (gated, r.2)

/-! ## Trip stitcher (`Triptable`, triptable.rs) -/

/-- From `make_valid_station_name_key` (lib.rs): lower-case, transliterate the
German umlauts, strip parentheses, replace spaces by dashes.  (Lean's
`String.toLower` lowers ASCII letters; the source's `to_lowercase` also
lowers non-ASCII letters, which none of the statements below exercise.) -/
def make_valid_station_name_key (station_name : String) : String :=
  ((((((station_name.toLower.replace "ö" "oe").replace "ä" "ae").replace
    "ü" "ue").replace "ß" "ss").replace "(" "").replace ")" "").replace " " "-"

/-- From `TimetableNews::is_own_station_name`: raw equality, alias-list
membership, or equality of normalised keys. -/
def TimetableNewsState.is_own_station_name (tt : TimetableNewsState)
    (name : String) : Bool :=
  name == tt.station_name
    || tt.station_name_aliases.contains name
    || make_valid_station_name_key name == make_valid_station_name_key tt.station_name

/-- From `struct InternalTripStop`: a path entry plus an optionally attached
concrete stop (the `Arc<RwLock<TimetableStop>>` is modelled by value). -/
structure InternalTripStop where
  info : ActualPathStop
  stop : Option TimetableStop := none
deriving DecidableEq

/-- From `struct InternalTrip`. -/
structure InternalTrip where
  id : String
  line : String
  category : String
  stops : List InternalTripStop
  last_updated : Option Int := none
deriving DecidableEq

/-- The `should_update` computation of `Triptable::update` (lines
270–274): the cache's live timestamp against the trip's `last_updated`. -/
def shouldUpdate (live_updated_at trip_last_updated_at : Option Int) : Bool :=
  match live_updated_at, trip_last_updated_at with
  | some date1, some date2 => decide (date1 ≥ date2)
  | some _, none => true
  | _, _ => false

/-- Lines 280–282 of `Triptable::update`: the display path of a stop with
its own station spliced in between arrival path and departure path. -/
def actualPathWithOwn (tt : TimetableNewsState) (stop : TimetableStop) :
    List ActualPathStop :=
  (stop.arrival_path.getD []) ++ [⟨stop.status, tt.station_name⟩]
    ++ (stop.departure_path.getD [])

/-- Lines 290–305 of `Triptable::update`: if the entry at index `i`
exists, has no attached stop, and carries the cache's own station name
(per `is_own_station_name`), attach the concrete stop there. -/
def attachAt (tt : TimetableNewsState) (stop : TimetableStop)
    (trip : InternalTrip) (i : Nat) : InternalTrip :=
  match trip.stops[i]? with
  | some entry =>
    if entry.stop.isNone && tt.is_own_station_name entry.info.name then
      { trip with stops := trip.stops.set i { entry with stop := some stop } }
    else trip
  | none => trip

/-- The non-matching arm of the path walk (lines 316–329): when the names
differ and the update is newer, insert a fresh entry at index `i`
(attaching the stop when the entry is the station's own, by raw name
equality) and stamp `last_updated`; `none` models the `break` of the
`i > stops_len` guard (the source prints "This is a bug").  When the
update is not newer the walk leaves the record alone and keeps `i`. -/
def stepMismatch (tt : TimetableNewsState) (live_updated_at : Option Int)
    (su : Bool) (stop : TimetableStop) (aps : ActualPathStop)
    (trip : InternalTrip) (i : Nat) : Option (InternalTrip × Nat) :=
  if su then
    if i > trip.stops.length then none
    else
      some ({ trip with
        stops := trip.stops.insertIdx i
          ⟨aps, if aps.name = tt.station_name then some stop else none⟩
        last_updated := live_updated_at }, i + 1)
  else some (trip, i)

/-- The `for actual_path_stop in actual_path` loop of `Triptable::update`
(lines 284–330) over an already-tracked trip: attach the own stop where
possible, then either patch the matching entry (when the update is newer,
update its status if different and stamp `last_updated`) and advance, or
fall to `stepMismatch`. -/
def walkPath (tt : TimetableNewsState) (live_updated_at : Option Int)
    (su : Bool) (stop : TimetableStop) :
    List ActualPathStop → InternalTrip → Nat → InternalTrip
  | [], trip, _ => trip
  | aps :: rest, trip, i =>
    let trip1 := attachAt tt stop trip i
    match trip1.stops[i]? with
    | some entry =>
      if aps.name = entry.info.name then
        let trip2 :=
          if su then
            let t1 :=
              if aps.status ≠ entry.info.status then
                { trip1 with stops :=
                  trip1.stops.set i { entry with info := { entry.info with status := aps.status } } }
              else trip1
            { t1 with last_updated := live_updated_at }
          else trip1
        walkPath tt live_updated_at su stop rest trip2 (i + 1)
      else
        match stepMismatch tt live_updated_at su stop aps trip1 i with
        | none => trip1
        | some r => walkPath tt live_updated_at su stop rest r.1 r.2
    | none =>
      match stepMismatch tt live_updated_at su stop aps trip1 i with
      | none => trip1
      | some r => walkPath tt live_updated_at su stop rest r.1 r.2

/-- Processing one stop of a station snapshot against an already-tracked
trip record (`Triptable::update`, lines 267–330): compute `should_update`
from the cache's live timestamp and the record's `last_updated`, build
the display path with the own station spliced in, and walk it from
index 0. -/
def updateTripWithStop (tt : TimetableNewsState) (live_updated_at : Option Int)
    (trip : InternalTrip) (stop : TimetableStop) : InternalTrip :=
  let su := shouldUpdate live_updated_at trip.last_updated
  walkPath tt live_updated_at su stop (actualPathWithOwn tt stop) trip 0

/-! ## Spec-side definitions (for comparison against the embedded code) -/

/-- Modelled from the spec (claim C5's words): the snapshot sort key as
"the earliest of (departure-planned, departure-revised, arrival-planned,
arrival-revised)" with `now` when none of the four is present. -/
def claimedEarliestKey (now : Int) (stop : TimetableStop) : Int :=
  (([stop.departure.bind (·.planned_time),
     stop.departure.bind (·.changed_time),
     stop.arrival.bind (·.planned_time),
     stop.arrival.bind (·.changed_time)].filterMap id).min?).getD now

/-- Propositions of the shape "whenever this optional field is present,
…" are decidable; used by the decidable spec-side predicates below. -/
instance decidableOptionForall {α : Type} (o : Option α) (P : α → Prop)
    [DecidablePred P] : Decidable (∀ a, o = some a → P a) :=
  match o with
  | none => .isTrue (by intro a h; cases h)
  | some a =>
    if h : P a then .isTrue (by intro b hb; cases hb; exact h)
    else .isFalse (fun hall => h (hall a rfl))

instance decidableOptionExists {α : Type} (o : Option α) (P : α → Prop)
    [DecidablePred P] : Decidable (∃ a, o = some a ∧ P a) :=
  match o with
  | none => .isFalse (by rintro ⟨a, h, -⟩; cases h)
  | some a =>
    if h : P a then .isTrue ⟨a, rfl, h⟩
    else .isFalse (by rintro ⟨b, hb, hpb⟩; cases hb; exact h hpb)

/-- Modelled from the spec (claim C1's words): the revised-time patch is
significant iff an incoming revised time is present, the absolute
difference to the cached revised time exceeds 1 minute (an absent cached
revised time always differing), and, when a planned time is present, the
new revised time is at least 5 minutes past it. -/
def claimedTimeSignificant (self other : Event) : Prop :=
  ∃ ct, other.changed_time = some ct ∧
    (∀ old, self.changed_time = some old → 60 < |ct - old|) ∧
    (∀ pt, self.planned_time = some pt → 300 ≤ ct - pt)

instance (self other : Event) : Decidable (claimedTimeSignificant self other) :=
  decidableOptionExists _ _

/-- The claim-C10 / amended characterisation of the unapplied-changes
buffer: a change is buffered iff its id is untracked at the moment it is
processed — against the initially tracked key set grown by the ids of
added stops inserted earlier in the same call — and it is not marked
added. -/
def bufferSpec (tracked : List String) : List TimetableStop → List TimetableStop
  | [] => []
  | s :: rest =>
    if tracked.contains s.id then bufferSpec tracked rest
    else if s.isAdded then bufferSpec (tracked ++ [s.id]) rest
    else s :: bufferSpec tracked rest

/-- Entries not tagged Added — the planned-side projection of a
reconciled path. -/
def notAddedTag (s : ActualPathStop) : Bool :=
  match s.status with
  | .Added => false
  | _ => true

/-- Entries not tagged Cancelled — the revised-side projection of a
reconciled path. -/
def notCancelledTag (s : ActualPathStop) : Bool :=
  match s.status with
  | .Cancelled => false
  | _ => true

/-- Entries tagged kept (the source's `Planned` tag). -/
def keptTag (s : ActualPathStop) : Bool :=
  match s.status with
  | .Planned => true
  | _ => false

/-- Spec-side predicate for claim C6: every present planned or revised
time on either event of the stop lies strictly before `cutoff`. -/
def allTimesBefore (stop : TimetableStop) (cutoff : Int) : Prop :=
  (∀ e, stop.arrival = some e →
    (∀ t, e.planned_time = some t → t < cutoff) ∧
    (∀ t, e.changed_time = some t → t < cutoff)) ∧
  (∀ e, stop.departure = some e →
    (∀ t, e.planned_time = some t → t < cutoff) ∧
    (∀ t, e.changed_time = some t → t < cutoff))

instance (stop : TimetableStop) (cutoff : Int) :
    Decidable (allTimesBefore stop cutoff) :=
  instDecidableAnd

/-- Spec-side relation for claim C3: `r` is `t` with, at most, the
concrete stop attached at entries that carried the station's own name and
had no stop attached; names, statuses, metadata and `last_updated` are
untouched. -/
def AttachOnly (tt : TimetableNewsState) (stop : TimetableStop)
    (t r : InternalTrip) : Prop :=
  r.id = t.id ∧ r.line = t.line ∧ r.category = t.category ∧
  r.last_updated = t.last_updated ∧
  r.stops.length = t.stops.length ∧
  (∀ k : Nat, (r.stops[k]? : Option InternalTripStop).map (·.info)
    = (t.stops[k]? : Option InternalTripStop).map (·.info)) ∧
  (∀ k : Nat, (r.stops[k]? : Option InternalTripStop) = t.stops[k]? ∨
    ∃ ts : InternalTripStop, t.stops[k]? = some ts ∧ ts.stop = none ∧
      tt.is_own_station_name ts.info.name = true ∧
      r.stops[k]? = some { ts with stop := some stop })

/-! ## Concrete witness and counterexample inputs -/

/-- A stop whose only time is far in the past (eviction witness input). -/
def c6stop : TimetableStop := { id := "x", arrival := some { planned_time := some 0 } }

def c6state : TimetableNewsState :=
  { eva := 1, station_name := "S", station_name_aliases := [], stops := [("x", c6stop)] }

/-- A stop whose departure event exists but has no planned time: the
snapshot sort keys it by the departure's changed time (1000), while the
spec's "earliest of the four" key would pick the arrival's planned time
(10). -/
def c5stopA : TimetableStop :=
  { id := "a",
    arrival := some { planned_time := some 10 },
    departure := some { changed_time := some 1000 } }

def c5stopB : TimetableStop :=
  { id := "b", departure := some { planned_time := some 500 } }

def c5state : TimetableNewsState :=
  { eva := 1, station_name := "S", station_name_aliases := [],
    stops := [("a", c5stopA), ("b", c5stopB)] }

/-- An added (unplanned) stop followed, in the same batch of changes, by
a further change to the same stop id. -/
def c10added : TimetableStop :=
  { id := "x", arrival := some { planned_status := some .Added } }

def c10change : TimetableStop :=
  { id := "x", departure := some { changed_time := some 5 } }

def c10state : TimetableNewsState :=
  { eva := 1, station_name := "S", station_name_aliases := [] }

/-- A tracked stop and a buffered change that, if replayed, would patch
it significantly (revised time moved 5 minutes later). -/
def c7tracked : TimetableStop := { id := "y", arrival := some { changed_time := some 0 } }

def c7buffered : TimetableStop := { id := "y", arrival := some { changed_time := some 300 } }

def c7state : TimetableNewsState :=
  { eva := 1, station_name := "S", station_name_aliases := [],
    stops := [("y", c7tracked)],
    unapplied_known_changes_cache := [c7buffered] }

/-- A station, a tracked trip record whose own entry has no attached
stop, and a fresh stop — inputs for the staleness claims. -/
def c3station : TimetableNewsState :=
  { eva := 1, station_name := "S", station_name_aliases := [] }

def c3trip : InternalTrip :=
  { id := "t", line := "L", category := "C",
    stops := [⟨⟨.Planned, "S"⟩, none⟩], last_updated := some 10 }

def c3stop : TimetableStop := { id := "z" }

/-- A station with an alias "T", an untracked trip, and a stop whose
arrival path names that alias — the inputs on which a second application
of the same snapshot still changes the trip record. -/
def c8station : TimetableNewsState :=
  { eva := 1, station_name := "S", station_name_aliases := ["T"] }

def c8trip : InternalTrip :=
  { id := "t", line := "L", category := "C", stops := [], last_updated := none }

def c8stop : TimetableStop :=
  { id := "z", arrival := some { actual_path := [⟨.Planned, "T"⟩] } }

/-! # Theorems -/

/-! ## Arithmetic facts about truncating division (chrono `num_minutes`) -/

theorem tdiv60_gt_one_iff (d : Int) : 1 < Int.tdiv d 60 ↔ 120 ≤ d := by
  rcases le_or_lt 0 d with h | h
  · rw [Int.tdiv_eq_ediv h (by norm_num)]
    have h1 := Int.ediv_add_emod d 60
    have h2 := Int.emod_nonneg d (by norm_num : (60:Int) ≠ 0)
    have h3 := Int.emod_lt_of_pos d (by norm_num : (0:Int) < 60)
    omega
  · constructor
    · intro hgt
      have h4 : 0 ≤ Int.tdiv (-d) 60 := Int.tdiv_nonneg (by omega) (by norm_num)
      have h5 : Int.tdiv (-d) 60 = -(Int.tdiv d 60) := Int.neg_tdiv d 60
      omega
    · intro; omega

theorem tdiv60_ge_five_iff (d : Int) : 5 ≤ Int.tdiv d 60 ↔ 300 ≤ d := by
  rcases le_or_lt 0 d with h | h
  · rw [Int.tdiv_eq_ediv h (by norm_num)]
    have h1 := Int.ediv_add_emod d 60
    have h2 := Int.emod_nonneg d (by norm_num : (60:Int) ≠ 0)
    have h3 := Int.emod_lt_of_pos d (by norm_num : (0:Int) < 60)
    omega
  · constructor
    · intro hgt
      have h4 : 0 ≤ Int.tdiv (-d) 60 := Int.tdiv_nonneg (by omega) (by norm_num)
      have h5 : Int.tdiv (-d) 60 = -(Int.tdiv d 60) := Int.neg_tdiv d 60
      omega
    · intro; omega

/-! ## Reconciler structure lemmas -/

theorem cancelBlock_notAdded (l : List String) :
    (((l.map (fun n => (⟨.Cancelled, n⟩ : ActualPathStop)))).filter notAddedTag).map (·.name) = l := by
  induction l with
  | nil => rfl
  | cons a rest ih => simpa [notAddedTag] using ih

theorem cancelBlock_notCancelled (l : List String) :
    (((l.map (fun n => (⟨.Cancelled, n⟩ : ActualPathStop)))).filter notCancelledTag).map (·.name) = [] := by
  induction l with
  | nil => rfl
  | cons a rest ih => simpa [notCancelledTag] using ih

theorem addBlock_notAdded (l : List String) :
    (((l.map (fun n => (⟨.Added, n⟩ : ActualPathStop)))).filter notAddedTag).map (·.name) = [] := by
  induction l with
  | nil => rfl
  | cons a rest ih => simpa [notAddedTag] using ih

theorem addBlock_notCancelled (l : List String) :
    (((l.map (fun n => (⟨.Added, n⟩ : ActualPathStop)))).filter notCancelledTag).map (·.name) = l := by
  induction l with
  | nil => rfl
  | cons a rest ih => simpa [notCancelledTag] using ih

/-- Dropping the Added entries of a reconciled path and reading the names
recovers exactly the planned path. -/
theorem reconcile_keeps_planned (P C : List String) :
    (((reconcilePath P C).filter notAddedTag).map (·.name)) = P := by
  induction P, C using reconcilePath.induct with
  | case1 => simp [reconcilePath]
  | case2 p ps ih =>
    simp only [reconcilePath]
    simpa [notAddedTag] using ih
  | case3 c cs ih =>
    simp only [reconcilePath]
    simpa [notAddedTag] using ih
  | case4 ps c cs ih =>
    simp only [reconcilePath, if_pos rfl]
    simpa [notAddedTag] using ih
  | case5 p ps c cs hne pk ck hres ih =>
    rw [reconcilePath, if_neg hne, hres]
    simp only [List.filter_append, List.map_append]
    rw [cancelBlock_notAdded, addBlock_notAdded, ih]
    simp [List.take_append_drop]
  | case6 p ps c cs hne hres =>
    rw [reconcilePath, if_neg hne, hres]
    simp only [List.filter_append, List.map_append]
    rw [cancelBlock_notAdded, addBlock_notAdded]
    simp

/-- Dropping the Cancelled entries of a reconciled path and reading the
names recovers exactly the changed (revised) path. -/
theorem reconcile_keeps_changed (P C : List String) :
    (((reconcilePath P C).filter notCancelledTag).map (·.name)) = C := by
  induction P, C using reconcilePath.induct with
  | case1 => simp [reconcilePath]
  | case2 p ps ih =>
    simp only [reconcilePath]
    simpa [notCancelledTag] using ih
  | case3 c cs ih =>
    simp only [reconcilePath]
    simpa [notCancelledTag] using ih
  | case4 ps c cs ih =>
    simp only [reconcilePath, if_pos rfl]
    simpa [notCancelledTag] using ih
  | case5 p ps c cs hne pk ck hres ih =>
    rw [reconcilePath, if_neg hne, hres]
    simp only [List.filter_append, List.map_append]
    rw [cancelBlock_notCancelled, addBlock_notCancelled, ih]
    simp [List.take_append_drop]
  | case6 p ps c cs hne hres =>
    rw [reconcilePath, if_neg hne, hres]
    simp only [List.filter_append, List.map_append]
    rw [cancelBlock_notCancelled, addBlock_notCancelled]
    simp

theorem keptTag_le_notAdded (a : ActualPathStop) :
    keptTag a = true → notAddedTag a = true := by
  cases h : a.status <;> simp [keptTag, notAddedTag, h]

theorem keptTag_le_notCancelled (a : ActualPathStop) :
    keptTag a = true → notCancelledTag a = true := by
  cases h : a.status <;> simp [keptTag, notCancelledTag, h]

/-- Claim C2 (confirmed): for every planned and revised path list, the
reconciled path's entries not tagged Added read back, in order, exactly
the planned list; the entries not tagged Cancelled read back exactly the
revised list (so the Cancelled entries are exactly the remaining planned
entries in their order and the Added entries exactly the remaining
revised entries in theirs); and the kept entries, in output order, form a
common subsequence of both lists. -/
theorem c2_reconciler_alignment (e : Event) (cp : List String)
    (h : e.changed_path = some cp) :
    (((e.calculate_actual_path.actual_path.filter notAddedTag).map (·.name))
        = e.planned_path
      ∧ ((e.calculate_actual_path.actual_path.filter notCancelledTag).map (·.name))
        = cp)
    ∧ ((e.calculate_actual_path.actual_path.filter keptTag).map (·.name)).Sublist
        e.planned_path
    ∧ ((e.calculate_actual_path.actual_path.filter keptTag).map (·.name)).Sublist
        cp := by
  have hout : e.calculate_actual_path.actual_path = reconcilePath e.planned_path cp := by
    simp [Event.calculate_actual_path, h]
  rw [hout]
  refine ⟨⟨reconcile_keeps_planned _ _, reconcile_keeps_changed _ _⟩, ?_, ?_⟩
  · have hs : ((reconcilePath e.planned_path cp).filter keptTag).Sublist
        ((reconcilePath e.planned_path cp).filter notAddedTag) :=
      List.monotone_filter_right _ keptTag_le_notAdded
    have hmap := hs.map (·.name)
    rwa [reconcile_keeps_planned] at hmap
  · have hs : ((reconcilePath e.planned_path cp).filter keptTag).Sublist
        ((reconcilePath e.planned_path cp).filter notCancelledTag) :=
      List.monotone_filter_right _ keptTag_le_notCancelled
    have hmap := hs.map (·.name)
    rwa [reconcile_keeps_changed] at hmap

/-- Claim C2's witness: the worked example planned = [A,B,C],
revised = [A,X,C]. -/
theorem c2_reconciler_alignment_witness :
    ((((Event.calculate_actual_path
          { planned_path := ["A", "B", "C"], changed_path := some ["A", "X", "C"] }).actual_path.filter
          notAddedTag).map (·.name))
        = (Event.planned_path
            { planned_path := ["A", "B", "C"], changed_path := some ["A", "X", "C"] })
      ∧ (((Event.calculate_actual_path
          { planned_path := ["A", "B", "C"], changed_path := some ["A", "X", "C"] }).actual_path.filter
          notCancelledTag).map (·.name))
        = ["A", "X", "C"])
    ∧ (((Event.calculate_actual_path
          { planned_path := ["A", "B", "C"], changed_path := some ["A", "X", "C"] }).actual_path.filter
          keptTag).map (·.name)).Sublist
        (Event.planned_path
          { planned_path := ["A", "B", "C"], changed_path := some ["A", "X", "C"] })
    ∧ (((Event.calculate_actual_path
          { planned_path := ["A", "B", "C"], changed_path := some ["A", "X", "C"] }).actual_path.filter
          keptTag).map (·.name)).Sublist
        ["A", "X", "C"] :=
  c2_reconciler_alignment
    { planned_path := ["A", "B", "C"], changed_path := some ["A", "X", "C"] }
    ["A", "X", "C"] rfl

/-- Claim C9 (confirmed): reconciling a planned path with an absent
revised path mirrors the planned path with every entry tagged kept
(the default `Planned` status). -/
theorem c9_reconcile_identity (e : Event) (h : e.changed_path = none) :
    (e.calculate_actual_path.actual_path.map (·.name) = e.planned_path)
    ∧ (∀ x ∈ e.calculate_actual_path.actual_path, x.status = EventStatus.Planned) := by
  constructor
  · simp only [Event.calculate_actual_path, h, List.map_map]
    have hcomp : ((fun x : ActualPathStop => x.name)
        ∘ fun n => (⟨.Planned, n⟩ : ActualPathStop)) = id := rfl
    rw [hcomp, List.map_id]
  · intro x hx
    simp [Event.calculate_actual_path, h] at hx
    obtain ⟨n, -, rfl⟩ := hx
    rfl

/-- Claim C9's witness at planned = [A,B]. -/
theorem c9_reconcile_identity_witness :
    ((Event.calculate_actual_path
        { planned_path := ["A", "B"], changed_path := none }).actual_path.map (·.name)
      = (Event.planned_path { planned_path := ["A", "B"], changed_path := none }))
    ∧ (∀ x ∈ (Event.calculate_actual_path
        { planned_path := ["A", "B"], changed_path := none }).actual_path,
        x.status = EventStatus.Planned) :=
  c9_reconcile_identity { planned_path := ["A", "B"], changed_path := none } rfl

/-! ## Claim C1: revised-time significance -/

/-- Claim C1 (amended): the revised-time field of a patch is significant
iff an incoming revised time `ct` is present, the cached revised time is
absent or at least 120 seconds (two whole truncated minutes) before `ct`
— so an earlier or a less-than-two-minutes-later revision is never
significant, the difference being signed, not absolute — and, whenever a
planned time is present, `ct` is at least 300 seconds past it. -/
theorem c1_time_significance (self other : Event) :
    timeFieldSignificant self other = true ↔
      ∃ ct, other.changed_time = some ct ∧
        (self.changed_time = none ∨
          ∃ old, self.changed_time = some old ∧ 120 ≤ ct - old) ∧
        (∀ pt, self.planned_time = some pt → 300 ≤ ct - pt) := by
  unfold timeFieldSignificant timeFieldUpdate
  cases hoc : other.changed_time with
  | none =>
    cases hsc : self.changed_time <;> cases hsp : self.planned_time <;>
      simp [updOption, hsc, hsp]
  | some ct =>
    cases hsc : self.changed_time with
    | none =>
      cases hsp : self.planned_time with
      | none => simp [updOption, hsp]
      | some pt =>
        simp [updOption, hsp, numMinutes, tdiv60_ge_five_iff]
    | some old =>
      by_cases heq : old = ct
      · subst heq
        cases hsp : self.planned_time
        all_goals simp [updOption, updTime, hsp]
      · cases hsp : self.planned_time with
        | none =>
          simp [updOption, updTime, heq, hsp, numMinutes, tdiv60_gt_one_iff]
        | some pt =>
          simp [updOption, updTime, heq, hsp, numMinutes, tdiv60_gt_one_iff,
            tdiv60_ge_five_iff]

/-- Claim C1's counterexample against the original claim: a revised time
moved 2 minutes earlier (absolute difference 120 s > 1 min) while sitting
8 minutes past the planned time is claimed significant, but the code
reports it insignificant (the code's difference is signed). -/
theorem c1_time_significance_counterexample :
    claimedTimeSignificant
      { changed_time := some 200, planned_time := some (-400) }
      { changed_time := some 80 } ∧
    timeFieldSignificant
      { changed_time := some 200, planned_time := some (-400) }
      { changed_time := some 80 } = false := by
  constructor
  · exact ⟨80, rfl, by intro old h; cases h; decide, by intro pt h; cases h; decide⟩
  · decide

/-! ## Claim C4: revised-status significance -/

/-- Claim C4 (amended): a revised-status patch is significant iff an
incoming revised status is present, differs from the cached revised
status, and is Cancelled; a change between any other pair of values is
applied but not reported significant. -/
theorem c4_status_significance (self other : Event) :
    statusFieldSignificant self other = true ↔
      ∃ s, other.changed_status = some s ∧ self.changed_status ≠ some s ∧
        s = EventStatus.Cancelled := by
  unfold statusFieldSignificant
  cases hoc : other.changed_status with
  | none =>
    cases hsc : self.changed_status <;> simp [updOption, hsc]
  | some s =>
    cases hsc : self.changed_status with
    | none =>
      simp [updOption, updStatus, actualStatusOf]
    | some t =>
      by_cases hts : t = s
      · subst hts
        simp [updOption, updStatus]
      · simp [updOption, updStatus, hts, actualStatusOf]

/-- Claim C4's counterexample against the original claim: an incoming
revised status `Added` against a cached revised status `Planned` differs,
yet the whole event patch reports no significant change. -/
theorem c4_status_significance_counterexample :
    (Event.changed_status { changed_status := some .Added })
        = some EventStatus.Added ∧
    (Event.changed_status { changed_status := some .Planned })
        = some EventStatus.Planned ∧
    (Event.timetablestop_update
      { changed_status := some .Planned }
      { changed_status := some .Added }).2 = false := by
  refine ⟨rfl, rfl, ?_⟩
  decide

/-! ## Claim C6: eviction -/

/-- A stop all of whose present times lie more than 120 minutes in the
past passes the removal check of `remove_outdated`. -/
theorem allTimesBefore_veryOutdated (now : Int) (id : String) (s : TimetableStop)
    (hold : allTimesBefore s (now - 7200)) : veryOutdated now (id, s) = true := by
  obtain ⟨harr, hdep⟩ := hold
  have hev : ∀ e : Event,
      (∀ t, e.planned_time = some t → t < now - 7200) ∧
      (∀ t, e.changed_time = some t → t < now - 7200) →
      isEventOutdated e REMOVE_STOP_AFTER now = true := by
    rintro e ⟨hp, hc⟩
    unfold isEventOutdated REMOVE_STOP_AFTER
    cases het : e.planned_time with
    | none =>
      cases hct : e.changed_time with
      | none => simp
      | some t =>
        have := hc t hct
        simp
        omega
    | some t =>
      have hpt := hp t het
      cases hct : e.changed_time with
      | none =>
        simp
        omega
      | some t2 =>
        have := hc t2 hct
        simp
        constructor <;> omega
  unfold veryOutdated
  cases ha : s.arrival with
  | none =>
    cases hd : s.departure with
    | none => simp
    | some e => simp [hev e ((hdep e hd))]
  | some e =>
    cases hd : s.departure with
    | none => simp [hev e ((harr e ha))]
    | some e2 => simp [hev e (harr e ha), hev e2 (hdep e2 hd)]

/-- Claim C6 (confirmed): a tracked stop all of whose present planned and
revised times lie more than 120 minutes before the current time is, after
the next eviction pass, gone from the stop map, present in the
removed-stops buffer (hence in the next drain), and absent — by id — from
any snapshot taken of the resulting state.  The id-invariant hypothesis
records that map keys are the stops' full-id strings, as maintained by
the running program. -/
theorem c6_eviction (st : TimetableNewsState) (now : Int) (id : String)
    (s : TimetableStop)
    (hmem : (id, s) ∈ st.stops)
    (hold : allTimesBefore s (now - 7200))
    (hinv : ∀ p ∈ st.stops, TimetableStop.id p.2 = p.1) :
    (∀ p ∈ (st.remove_outdated now).stops, p.1 ≠ id) ∧
    s ∈ (st.remove_outdated now).removed_stops ∧
    s ∈ (st.remove_outdated now).get_and_clear_removed_stops.1 ∧
    (∀ now2, ∀ x ∈ ((st.remove_outdated now).get_current now2).2,
      TimetableStop.id x ≠ id) := by
  have hpred : veryOutdated now (id, s) = true := allTimesBefore_veryOutdated now id s hold
  have hidin : id ∈ (st.stops.filter (veryOutdated now)).map (·.1) := by
    exact List.mem_map.mpr ⟨(id, s), List.mem_filter.mpr ⟨hmem, hpred⟩, rfl⟩
  have hcont : ((st.stops.filter (veryOutdated now)).map (·.1)).contains id = true := by
    simpa using hidin
  have hnotin : ∀ p ∈ (st.remove_outdated now).stops, p.1 ≠ id := by
    intro p hp rfl'
    unfold TimetableNewsState.remove_outdated at hp
    simp only [List.mem_filter] at hp
    rw [rfl'] at hp
    rw [hcont] at hp
    simp at hp
  refine ⟨hnotin, ?_, ?_, ?_⟩
  · unfold TimetableNewsState.remove_outdated
    simp only [List.mem_append]
    right
    exact List.mem_map.mpr ⟨(id, s), List.mem_filter.mpr ⟨hmem, by simpa using hcont⟩, rfl⟩
  · unfold TimetableNewsState.get_and_clear_removed_stops
    unfold TimetableNewsState.remove_outdated
    simp only [List.mem_append]
    right
    exact List.mem_map.mpr ⟨(id, s), List.mem_filter.mpr ⟨hmem, by simpa using hcont⟩, rfl⟩
  · intro now2 x hx
    unfold TimetableNewsState.get_current at hx
    simp only at hx
    rw [sortStops] at hx
    have hperm := List.perm_insertionSort
      (fun a b => mostSignificantTime now2 a ≤ mostSignificantTime now2 b)
      ((((st.remove_outdated now).remove_outdated now2).stops.map (·.2)).filter
        (fun stop => !isStopOutdated stop 2 now2))
    have hx2 := hperm.mem_iff.mp hx
    have hx3 := List.mem_of_mem_filter hx2
    obtain ⟨p, hp, rfl⟩ := List.mem_map.mp hx3
    have hp1 : p ∈ (st.remove_outdated now).stops := by
      unfold TimetableNewsState.remove_outdated at hp
      exact List.mem_of_mem_filter hp
    have hne := hnotin p hp1
    have hkey : TimetableStop.id p.2 = p.1 := by
      apply hinv
      have hsub : p ∈ st.stops := by
        unfold TimetableNewsState.remove_outdated at hp1
        exact List.mem_of_mem_filter hp1
      exact hsub
    rw [hkey]
    exact hne

/-- Claim C6's witness: a single tracked stop whose only time (0) is more
than 120 minutes before now = 10000. -/
theorem c6_eviction_witness :
    (∀ p ∈ (c6state.remove_outdated 10000).stops, p.1 ≠ "x") ∧
    c6stop ∈ (c6state.remove_outdated 10000).removed_stops ∧
    c6stop ∈ (c6state.remove_outdated 10000).get_and_clear_removed_stops.1 ∧
    (∀ now2, ∀ x ∈ ((c6state.remove_outdated 10000).get_current now2).2,
      TimetableStop.id x ≠ "x") :=
  c6_eviction c6state 10000 "x" c6stop (by decide) (by decide) (by decide)

/-! ## Claim C5: snapshot ordering -/

/-- Claim C5 (amended): `get_current` first evicts very outdated stops,
filters the remaining tracked stops, and returns them sorted by
`mostSignificantTime` — the departure event's planned-else-revised time
when a departure event exists, else the arrival event's
planned-else-revised time, else "now" (not by the earliest of the four
times: only the first present event is consulted, planned before
revised). -/
theorem c5_snapshot_sorted (st : TimetableNewsState) (now : Int) :
    ((st.get_current now).2).Perm
      (((st.remove_outdated now).stops.map (·.2)).filter
        (fun stop => !isStopOutdated stop 2 now)) ∧
    ((st.get_current now).2).Pairwise
      (fun a b => mostSignificantTime now a ≤ mostSignificantTime now b) := by
  constructor
  · unfold TimetableNewsState.get_current sortStops
    exact List.perm_insertionSort _ _
  · unfold TimetableNewsState.get_current sortStops
    haveI : IsTotal TimetableStop
        (fun a b => mostSignificantTime now a ≤ mostSignificantTime now b) :=
      ⟨fun a b => le_total _ _⟩
    haveI : IsTrans TimetableStop
        (fun a b => mostSignificantTime now a ≤ mostSignificantTime now b) :=
      ⟨fun a b c hab hbc => le_trans hab hbc⟩
    exact List.sorted_insertionSort _ _

/-- Claim C5's counterexample against the original claim: with stop A
(arrival planned at 10, departure revised at 1000) and stop B (departure
planned at 500), the snapshot returns [B, A], which is not sorted by the
claimed "earliest of the four times" key (10 for A, 500 for B). -/
theorem c5_snapshot_counterexample :
    ((c5state.get_current 0).2).map TimetableStop.id = ["b", "a"] ∧
    claimedEarliestKey 0 c5stopB > claimedEarliestKey 0 c5stopA ∧
    ¬ ((c5state.get_current 0).2).Pairwise
        (fun a b => claimedEarliestKey 0 a ≤ claimedEarliestKey 0 b) := by
  refine ⟨by decide, by decide, ?_⟩
  intro h
  have heq : (c5state.get_current 0).2 = [c5stopB, c5stopA] := by decide
  rw [heq] at h
  have h2 := List.rel_of_pairwise_cons h (List.mem_singleton.mpr rfl)
  revert h2
  decide

/-! ## Claim C10: the unapplied-changes buffer -/

theorem assocUpdate_keys (k : String) (v : TimetableStop)
    (m : List (String × TimetableStop)) :
    (assocUpdate k v m).map (·.1) = m.map (·.1) := by
  induction m with
  | nil => rfl
  | cons p ps ih =>
    by_cases h : p.1 = k <;> simp [assocUpdate, h] at ih ⊢ <;> exact ih

theorem lookup_isSome_eq_contains (m : List (String × TimetableStop)) (k : String) :
    (m.lookup k).isSome = (m.map (·.1)).contains k := by
  induction m with
  | nil => rfl
  | cons p ps ih =>
    simp only [List.lookup, List.map_cons, List.contains_cons]
    by_cases h : k = p.1
    · simp [h]
    · have hbeq : (k == p.1) = false := by simpa using h
      simp [hbeq, ih]

theorem calculate_all_id (s : TimetableStop) :
    (TimetableStop.calculate_all s).id = s.id := rfl

theorem applyUpdatesGo_buffer (changes : List TimetableStop) :
    ∀ stops : List (String × TimetableStop),
    (applyUpdatesGo stops changes).2.2 = bufferSpec (stops.map (·.1)) changes := by
  induction changes with
  | nil => intro stops; rfl
  | cons s rest ih =>
    intro stops
    cases hl : stops.lookup s.id with
    | some found =>
      have hc : (stops.map (·.1)).contains s.id = true := by
        rw [← lookup_isSome_eq_contains, hl]; rfl
      simp only [applyUpdatesGo, hl, bufferSpec, hc, if_pos]
      rw [ih, assocUpdate_keys]
    | none =>
      have hc : (stops.map (·.1)).contains s.id = false := by
        rw [← lookup_isSome_eq_contains, hl]; rfl
      by_cases ha : s.isAdded
      · simp only [applyUpdatesGo, hl, ha, bufferSpec, hc, if_true, if_false,
          Bool.false_eq_true, ite_false, ite_true]
        rw [ih]
        simp [calculate_all_id]
      · simp only [applyUpdatesGo, hl, bufferSpec, hc, Bool.false_eq_true, ite_false]
        simp only [ha, Bool.false_eq_true, ite_false]
        rw [ih]

/-- Claim C10 (amended): after `apply_updates`, the unapplied-changes
buffer holds exactly the incoming stops, in input order, that are not
marked added and whose full id is untracked at the moment that change is
processed — i.e. against the key set at the call's start grown by the ids
of added stops inserted earlier in the same call; whatever the buffer
held before the call is discarded (the right-hand side does not depend on
it). -/
theorem c10_buffer (st : TimetableNewsState) (changes : List TimetableStop) :
    (st.apply_updates changes).1.unapplied_known_changes_cache
      = bufferSpec (st.stops.map (·.1)) changes := by
  unfold TimetableNewsState.apply_updates
  exact applyUpdatesGo_buffer changes st.stops

/-- Claim C10's counterexample against the original claim: an added stop
for an unknown id "x" followed by a non-added change for the same id —
the second change reaches a map that meanwhile tracks "x" and is applied,
so the buffer ends empty, while the claimed "untracked at the time of the
call and not added" filter would have buffered it. -/
theorem c10_buffer_counterexample :
    (c10state.apply_updates [c10added, c10change]).1.unapplied_known_changes_cache = [] ∧
    ([c10added, c10change].filter (fun s =>
        !((c10state.stops.map (·.1)).contains s.id) && !s.isAdded)) = [c10change] := by
  constructor <;> decide

/-! ## Claim C7: refresh-cycle error handling -/

theorem remove_outdated_unapplied (st : TimetableNewsState) (now : Int) :
    (st.remove_outdated now).unapplied_known_changes_cache
      = st.unapplied_known_changes_cache := rfl

/-- Claim C7 (amended): when the known-changes fetch fails, the cache
replays its unapplied-changes buffer against the tracked set and returns
`errButValues` carrying the replayed updates and the fetch errors — in
every branch except when the plan fetch itself failed with no values, in
which case it returns `err` with both errors and leaves the buffer
untouched, replaying nothing.  In all branches the operation returns an
outcome classification; it never raises (the embedded function is total
by construction, mirroring the source's infallible signature). -/
theorem c7_error_handling (st : TimetableNewsState) (now : Int) (e : String) :
    (∀ u, (st.get_updates now (.ok u) (.error e)).2
        = .errButValues
            (({ st with unapplied_known_changes_cache := [] }).apply_updates
              st.unapplied_known_changes_cache).2 [e])
    ∧ ((st.get_updates now .okNoValues (.error e)).2
        = .errButValues
            (({ st with unapplied_known_changes_cache := [] }).apply_updates
              st.unapplied_known_changes_cache).2 [e])
    ∧ (∀ u w, (st.get_updates now (.errButValues u w) (.error e)).2
        = .errButValues
            (({ st with unapplied_known_changes_cache := [] }).apply_updates
              st.unapplied_known_changes_cache).2 [w, e])
    ∧ (∀ w, (st.get_updates now (.err w) (.error e)).2 = .err [w, e]
        ∧ (st.get_updates now (.err w) (.error e)).1.unapplied_known_changes_cache
            = st.unapplied_known_changes_cache) := by
  refine ⟨fun u => rfl, rfl, fun u w => rfl, fun w => ⟨rfl, ?_⟩⟩
  unfold TimetableNewsState.get_updates
  simp only []
  split
  · rw [remove_outdated_unapplied]
  · rfl

/-- Claim C7's counterexample against the original claim: when the plan
fetch failed outright and the known-changes fetch also fails, the cycle
returns plain `err` with both errors and does not replay the buffer —
although the buffered change would have applied (third conjunct). -/
theorem c7_error_handling_counterexample :
    (c7state.get_updates 0 (.err "plan failed") (.error "changes failed")).2
        = .err ["plan failed", "changes failed"] ∧
    (c7state.get_updates 0 (.err "plan failed")
        (.error "changes failed")).1.unapplied_known_changes_cache = [c7buffered] ∧
    (({ c7state with unapplied_known_changes_cache := [] }).apply_updates
        c7state.unapplied_known_changes_cache).2 ≠ [] := by
  refine ⟨by decide, by decide, by decide⟩

/-! ## Claim C3: stale updates against a trip record -/

theorem attachOnly_refl (tt : TimetableNewsState) (stop : TimetableStop)
    (t : InternalTrip) : AttachOnly tt stop t t :=
  ⟨rfl, rfl, rfl, rfl, rfl, fun _ => rfl, fun _ => Or.inl rfl⟩

theorem attachOnly_trans (tt : TimetableNewsState) (stop : TimetableStop)
    (t u r : InternalTrip) (h1 : AttachOnly tt stop t u)
    (h2 : AttachOnly tt stop u r) : AttachOnly tt stop t r := by
  obtain ⟨e1, e2, e3, e4, e5, e6, e7⟩ := h1
  obtain ⟨f1, f2, f3, f4, f5, f6, f7⟩ := h2
  refine ⟨f1.trans e1, f2.trans e2, f3.trans e3, f4.trans e4, f5.trans e5,
    fun k => (f6 k).trans (e6 k), fun k => ?_⟩
  rcases f7 k with hfk | ⟨ts, hts, hn, ho, hr⟩
  · rcases e7 k with hek | ⟨ts, hts2, hn, ho, hu⟩
    · exact Or.inl (hfk.trans hek)
    · exact Or.inr ⟨ts, hts2, hn, ho, hfk.trans hu⟩
  · rcases e7 k with hek | ⟨ts2, hts2, hn2, ho2, hu2⟩
    · rw [hek] at hts
      exact Or.inr ⟨ts, hts, hn, ho, hr⟩
    · rw [hu2] at hts
      cases hts
      simp at hn

theorem attachAt_attachOnly (tt : TimetableNewsState) (stop : TimetableStop)
    (trip : InternalTrip) (i : Nat) :
    AttachOnly tt stop trip (attachAt tt stop trip i) := by
  unfold attachAt
  cases he : trip.stops[i]? with
  | none => exact attachOnly_refl tt stop trip
  | some entry =>
    dsimp only
    by_cases hc : entry.stop.isNone && tt.is_own_station_name entry.info.name
    · rw [if_pos hc]
      have hi : i < trip.stops.length := by
        by_contra hlen
        rw [List.getElem?_eq_none (by omega)] at he
        exact Option.noConfusion he
      obtain ⟨hnone, hown⟩ := Bool.and_eq_true_iff.mp hc
      refine ⟨rfl, rfl, rfl, rfl, by simp, fun k => ?_, fun k => ?_⟩
      · by_cases hk : i = k
        · subst hk
          rw [List.getElem?_set_eq (by simpa using hi), he]
          rfl
        · rw [List.getElem?_set_ne hk]
      · by_cases hk : i = k
        · subst hk
          rw [List.getElem?_set_eq (by simpa using hi)]
          exact Or.inr ⟨entry, he, by simpa using hnone, hown, rfl⟩
        · rw [List.getElem?_set_ne hk]
          exact Or.inl rfl
    · rw [if_neg hc]
      exact attachOnly_refl tt stop trip

/-- With `should_update = false` the path walk can only attach the
concrete stop at own-station entries; everything else is untouched. -/
theorem walkPath_false_attachOnly (tt : TimetableNewsState)
    (live : Option Int) (stop : TimetableStop) (l : List ActualPathStop) :
    ∀ (trip : InternalTrip) (i : Nat),
    AttachOnly tt stop trip (walkPath tt live false stop l trip i) := by
  induction l with
  | nil => intro trip i; exact attachOnly_refl tt stop trip
  | cons aps rest ih =>
    intro trip i
    have hstep := attachAt_attachOnly tt stop trip i
    unfold walkPath
    dsimp only
    cases he : (attachAt tt stop trip i).stops[i]? with
    | none =>
      dsimp only
      simp only [stepMismatch, if_neg (by simp : ¬ (false = true))]
      exact attachOnly_trans tt stop _ _ _ hstep (ih _ i)
    | some entry =>
      dsimp only
      by_cases hn : aps.name = entry.info.name
      · rw [if_pos hn]
        simp only [if_neg (by simp : ¬ (false = true))]
        exact attachOnly_trans tt stop _ _ _ hstep (ih _ (i + 1))
      · rw [if_neg hn]
        simp only [stepMismatch, if_neg (by simp : ¬ (false = true))]
        exact attachOnly_trans tt stop _ _ _ hstep (ih _ i)

/-- Claim C3 (amended): processing a station snapshot whose cache
timestamp is strictly older than the trip record's `last_updated` leaves
the record's entry names, statuses, metadata, length and `last_updated`
unchanged, but may still attach the concrete Stop at an entry that
carries the station's own name and had no stop attached — the attach step
is not guarded by the timestamp comparison. -/
theorem c3_stale_update (tt : TimetableNewsState) (live : Option Int)
    (trip : InternalTrip) (stop : TimetableStop) (d1 d2 : Int)
    (h1 : live = some d1) (h2 : trip.last_updated = some d2) (hlt : d1 < d2) :
    AttachOnly tt stop trip (updateTripWithStop tt live trip stop) := by
  unfold updateTripWithStop
  have hsu : shouldUpdate live trip.last_updated = false := by
    rw [h1, h2]
    unfold shouldUpdate
    simp
    omega
  rw [hsu]
  exact walkPath_false_attachOnly tt live stop _ trip 0

/-- Claim C3's counterexample against the original claim: a snapshot with
cache timestamp 5, older than the record's `last_updated` 10, still
changes the record — the concrete stop is attached to the unfilled
own-station entry. -/
theorem c3_stale_update_counterexample :
    updateTripWithStop c3station (some 5) c3trip c3stop ≠ c3trip ∧
    (updateTripWithStop c3station (some 5) c3trip c3stop).stops
      = [⟨⟨.Planned, "S"⟩, some c3stop⟩] := by
  constructor <;> decide

/-- Claim C3's witness: the amended theorem applied at the concrete
stale-update inputs. -/
theorem c3_stale_update_witness :
    AttachOnly c3station c3stop c3trip
      (updateTripWithStop c3station (some 5) c3trip c3stop) :=
  c3_stale_update c3station (some 5) c3trip c3stop 5 10 rfl rfl (by decide)

/-! ## Claim C8: idempotence of snapshot processing -/

theorem getElem?_insertIdx_lt {α : Type} : ∀ (l : List α) (i j : Nat) (a : α),
    j < i → (l.insertIdx i a)[j]? = l[j]? := by
  intro l
  induction l with
  | nil =>
    intro i j a hj
    cases i with
    | zero => omega
    | succ n => rw [List.insertIdx_succ_nil]
  | cons hd tl ih =>
    intro i j a hj
    cases i with
    | zero => omega
    | succ n =>
      rw [List.insertIdx_succ_cons]
      cases j with
      | zero => simp
      | succ m =>
        simp only [List.getElem?_cons_succ]
        exact ih n m a (by omega)

theorem getElem?_insertIdx_self {α : Type} : ∀ (l : List α) (i : Nat) (a : α),
    i ≤ l.length → (l.insertIdx i a)[i]? = some a := by
  intro l
  induction l with
  | nil =>
    intro i a hi
    have hz : i = 0 := by simpa using hi
    subst hz
    rfl
  | cons hd tl ih =>
    intro i a hi
    cases i with
    | zero => rfl
    | succ n =>
      rw [List.insertIdx_succ_cons]
      simp only [List.getElem?_cons_succ]
      exact ih n a (by simpa using hi)

theorem attachAt_getElem?_ne (tt : TimetableNewsState) (stop : TimetableStop)
    (trip : InternalTrip) (i j : Nat) (hj : j ≠ i) :
    (attachAt tt stop trip i).stops[j]? = trip.stops[j]? := by
  unfold attachAt
  cases he : trip.stops[i]? with
  | none => rfl
  | some entry =>
    dsimp only
    by_cases hc : entry.stop.isNone && tt.is_own_station_name entry.info.name
    · rw [if_pos hc]
      exact List.getElem?_set_ne (by omega)
    · rw [if_neg hc]

theorem walkPath_preserve_lt (tt : TimetableNewsState) (live : Option Int)
    (su : Bool) (stop : TimetableStop) (l : List ActualPathStop) :
    ∀ (trip : InternalTrip) (i j : Nat), j < i →
    (walkPath tt live su stop l trip i).stops[j]? = trip.stops[j]? := by
  induction l with
  | nil => intro trip i j hj; rfl
  | cons aps rest ih =>
    intro trip i j hj
    have hatt := attachAt_getElem?_ne tt stop trip i j (by omega)
    unfold walkPath
    dsimp only
    cases he : (attachAt tt stop trip i).stops[i]? with
    | none =>
      dsimp only
      unfold stepMismatch
      cases su with
      | false =>
        simp only [Bool.false_eq_true, if_false]
        rw [ih _ i j hj, hatt]
      | true =>
        simp only [reduceIte]
        by_cases hlen : i > (attachAt tt stop trip i).stops.length
        · rw [if_pos hlen]
          exact hatt
        · rw [if_neg hlen]
          rw [ih _ (i + 1) j (by omega)]
          dsimp only
          rw [getElem?_insertIdx_lt _ _ _ _ hj, hatt]
    | some entry =>
      dsimp only
      by_cases hn : aps.name = entry.info.name
      · rw [if_pos hn]
        cases su with
        | false =>
          simp only [Bool.false_eq_true, if_false]
          rw [ih _ (i + 1) j (by omega), hatt]
        | true =>
          simp only [reduceIte]
          rw [ih _ (i + 1) j (by omega)]
          by_cases hst : aps.status ≠ entry.info.status
          · rw [if_pos hst]
            dsimp only
            rw [List.getElem?_set_ne (by omega), hatt]
          · rw [if_neg hst]
            exact hatt
      · rw [if_neg hn]
        unfold stepMismatch
        cases su with
        | false =>
          simp only [Bool.false_eq_true, if_false]
          rw [ih _ i j hj, hatt]
        | true =>
          simp only [reduceIte]
          by_cases hlen : i > (attachAt tt stop trip i).stops.length
          · rw [if_pos hlen]
            exact hatt
          · rw [if_neg hlen]
            rw [ih _ (i + 1) j (by omega)]
            dsimp only
            rw [getElem?_insertIdx_lt _ _ _ _ hj, hatt]

theorem is_own_self (tt : TimetableNewsState) :
    tt.is_own_station_name tt.station_name = true := by
  unfold TimetableNewsState.is_own_station_name
  simp

theorem attachAt_length (tt : TimetableNewsState) (stop : TimetableStop)
    (trip : InternalTrip) (i : Nat) :
    (attachAt tt stop trip i).stops.length = trip.stops.length := by
  unfold attachAt
  cases he : trip.stops[i]? with
  | none => rfl
  | some entry =>
    dsimp only
    by_cases hc : entry.stop.isNone && tt.is_own_station_name entry.info.name
    · rw [if_pos hc]
      simp
    · rw [if_neg hc]

theorem attachAt_self_isSome (tt : TimetableNewsState) (stop : TimetableStop)
    (trip : InternalTrip) (i : Nat) (entry : InternalTripStop)
    (he : (attachAt tt stop trip i).stops[i]? = some entry)
    (hown : tt.is_own_station_name entry.info.name = true) :
    entry.stop.isSome = true := by
  unfold attachAt at he
  cases h0 : trip.stops[i]? with
  | none =>
    rw [h0] at he
    rw [h0] at he
    exact Option.noConfusion he
  | some entry0 =>
    rw [h0] at he
    dsimp only at he
    have hi : i < trip.stops.length := by
      by_contra hc
      rw [List.getElem?_eq_none (by omega)] at h0
      exact Option.noConfusion h0
    by_cases hc : entry0.stop.isNone && tt.is_own_station_name entry0.info.name
    · rw [if_pos hc] at he
      rw [List.getElem?_set_eq (by simpa using hi)] at he
      cases he
      rfl
    · rw [if_neg hc] at he
      rw [h0] at he
      cases he
      rw [Bool.and_eq_true_iff] at hc
      push_neg at hc
      cases hst : entry.stop with
      | none =>
        have hc2 := by simpa using hc
        exact absurd hown (by simp [hc2 (by simp [hst])])
      | some v => rfl

theorem walkStep_compose (tt : TimetableNewsState) (live : Option Int)
    (stop : TimetableStop) (rest : List ActualPathStop)
    (hih : ∀ (trip : InternalTrip) (i : Nat), i ≤ trip.stops.length →
      ((∀ (j : Nat) (e0 : ActualPathStop), rest[j]? = some e0 →
          ∃ e : InternalTripStop,
            (walkPath tt live true stop rest trip i).stops[i + j]? = some e ∧
            e.info = e0 ∧ (e0.name = tt.station_name → e.stop.isSome = true)) ∧
       (rest ≠ [] → (walkPath tt live true stop rest trip i).last_updated = live) ∧
       i + rest.length ≤ (walkPath tt live true stop rest trip i).stops.length))
    (trip2 : InternalTrip) (i : Nat) (aps : ActualPathStop)
    (h1 : ∃ e : InternalTripStop, trip2.stops[i]? = some e ∧ e.info = aps ∧
      (aps.name = tt.station_name → e.stop.isSome = true))
    (h2 : trip2.last_updated = live)
    (h3 : i + 1 ≤ trip2.stops.length) :
    ((∀ (j : Nat) (e0 : ActualPathStop), (aps :: rest)[j]? = some e0 →
        ∃ e : InternalTripStop,
          (walkPath tt live true stop rest trip2 (i + 1)).stops[i + j]? = some e ∧
          e.info = e0 ∧ (e0.name = tt.station_name → e.stop.isSome = true)) ∧
     (aps :: rest ≠ [] →
       (walkPath tt live true stop rest trip2 (i + 1)).last_updated = live) ∧
     i + (aps :: rest).length ≤
       (walkPath tt live true stop rest trip2 (i + 1)).stops.length) := by
  obtain ⟨hrec1, hrec2, hrec3⟩ := hih trip2 (i + 1) h3
  refine ⟨?_, ?_, ?_⟩
  · intro j e0 hj
    cases j with
    | zero =>
      obtain ⟨e, he, hinfo, hown⟩ := h1
      obtain rfl : aps = e0 := by simpa using hj
      refine ⟨e, ?_, hinfo, hown⟩
      have hp := walkPath_preserve_lt tt live true stop rest trip2 (i + 1) i (by omega)
      simpa using hp.trans he
    | succ m =>
      have hm : rest[m]? = some e0 := by simpa using hj
      obtain ⟨e, he, hinfo, hown⟩ := hrec1 m e0 hm
      refine ⟨e, ?_, hinfo, hown⟩
      have harith : i + 1 + m = i + (m + 1) := by omega
      rwa [harith] at he
  · intro hne0
    cases rest with
    | nil => simpa using h2
    | cons b bs => exact hrec2 (by simp)
  · have hlen := hrec3
    simp only [List.length_cons]
    omega

theorem walkPath_true_spec (tt : TimetableNewsState) (live : Option Int)
    (stop : TimetableStop) (l : List ActualPathStop) :
    ∀ (trip : InternalTrip) (i : Nat), i ≤ trip.stops.length →
    ((∀ (j : Nat) (e0 : ActualPathStop), l[j]? = some e0 →
        ∃ e : InternalTripStop,
          (walkPath tt live true stop l trip i).stops[i + j]? = some e ∧
          e.info = e0 ∧ (e0.name = tt.station_name → e.stop.isSome = true)) ∧
     (l ≠ [] → (walkPath tt live true stop l trip i).last_updated = live) ∧
     i + l.length ≤ (walkPath tt live true stop l trip i).stops.length) := by
  induction l with
  | nil =>
    intro trip i hi
    refine ⟨fun j e0 hj => by simp at hj, fun h => absurd rfl h, by simpa using hi⟩
  | cons aps rest ih =>
    intro trip i hi
    have hlen1 : (attachAt tt stop trip i).stops.length = trip.stops.length :=
      attachAt_length tt stop trip i
    unfold walkPath
    dsimp only
    cases ht1 : (attachAt tt stop trip i).stops[i]? with
    | some entry =>
      dsimp only
      have hilt : i < trip.stops.length := by
        by_contra hc
        rw [List.getElem?_eq_none (by omega)] at ht1
        exact Option.noConfusion ht1
      by_cases hn : aps.name = entry.info.name
      · rw [if_pos hn]
        simp only [reduceIte]
        refine walkStep_compose tt live stop rest ih _ i aps ?_ ?_ ?_
        · by_cases hst : aps.status ≠ entry.info.status
          · rw [if_pos hst]
            refine ⟨{ entry with info := { entry.info with status := aps.status } }, ?_, ?_, ?_⟩
            · dsimp only
              rw [List.getElem?_set_eq (by omega)]
            · cases aps
              simp_all
            · intro hname
              have hown : tt.is_own_station_name entry.info.name = true := by
                rw [← hn, hname]
                exact is_own_self tt
              exact attachAt_self_isSome tt stop trip i entry ht1 hown
          · rw [if_neg hst]
            refine ⟨entry, ht1, ?_, ?_⟩
            · push_neg at hst
              cases aps
              cases hinfo : entry.info
              simp_all
            · intro hname
              have hown : tt.is_own_station_name entry.info.name = true := by
                rw [← hn, hname]
                exact is_own_self tt
              exact attachAt_self_isSome tt stop trip i entry ht1 hown
        · rfl
        · by_cases hst : aps.status ≠ entry.info.status
          · rw [if_pos hst]
            dsimp only
            simp only [List.length_set]
            omega
          · rw [if_neg hst]
            dsimp only
            omega
      · rw [if_neg hn]
        unfold stepMismatch
        simp only [reduceIte]
        rw [if_neg (by omega : ¬ i > (attachAt tt stop trip i).stops.length)]
        refine walkStep_compose tt live stop rest ih _ i aps ?_ ?_ ?_
        · refine ⟨⟨aps, if aps.name = tt.station_name then some stop else none⟩, ?_, rfl, ?_⟩
          · dsimp only
            exact getElem?_insertIdx_self _ _ _ (by omega)
          · intro hname
            rw [if_pos hname]
            rfl
        · rfl
        · dsimp only
          rw [List.length_insertIdx i _ (by omega)]
          omega
    | none =>
      dsimp only
      have hieq : i = trip.stops.length := by
        have hle := List.getElem?_eq_none_iff.mp ht1
        omega
      unfold stepMismatch
      simp only [reduceIte]
      rw [if_neg (by omega : ¬ i > (attachAt tt stop trip i).stops.length)]
      refine walkStep_compose tt live stop rest ih _ i aps ?_ ?_ ?_
      · refine ⟨⟨aps, if aps.name = tt.station_name then some stop else none⟩, ?_, rfl, ?_⟩
        · dsimp only
          exact getElem?_insertIdx_self _ _ _ (by omega)
        · intro hname
          rw [if_pos hname]
          rfl
      · rfl
      · dsimp only
        rw [List.length_insertIdx i _ (by omega)]
        omega

theorem walkPath_true_noop (tt : TimetableNewsState) (live : Option Int)
    (stop : TimetableStop) (l : List ActualPathStop) :
    ∀ (r : InternalTrip) (i : Nat),
    (∀ (j : Nat) (e0 : ActualPathStop), l[j]? = some e0 →
      ∃ e : InternalTripStop, r.stops[i + j]? = some e ∧ e.info = e0 ∧
        ¬(e.stop = none ∧ tt.is_own_station_name e0.name = true)) →
    (l ≠ [] → r.last_updated = live) →
    walkPath tt live true stop l r i = r := by
  induction l with
  | nil => intro r i hfacts hlu; rfl
  | cons aps rest ih =>
    intro r i hfacts hlu
    obtain ⟨e, he, hinfo, hno⟩ := hfacts 0 aps (by simp)
    rw [show i + 0 = i from rfl] at he
    have hatt : attachAt tt stop r i = r := by
      unfold attachAt
      rw [he]
      dsimp only
      rw [if_neg ?hc]
      case hc =>
        intro hc
        obtain ⟨h1b, h2b⟩ := Bool.and_eq_true_iff.mp hc
        apply hno
        refine ⟨by simpa using h1b, ?_⟩
        rw [← hinfo]
        exact h2b
    have hrl : { r with last_updated := live } = r := by
      have hl2 : r.last_updated = live := hlu (by simp)
      cases r
      simp_all
    unfold walkPath
    dsimp only
    rw [hatt, he]
    dsimp only
    rw [if_pos (show aps.name = e.info.name from by rw [hinfo])]
    simp only [reduceIte]
    rw [if_neg (show ¬ aps.status ≠ e.info.status from by rw [hinfo]; simp)]
    rw [hrl]
    refine ih r (i + 1) ?_ (fun hne => hlu (by simp))
    intro j e0 hj
    have hshift := hfacts (j + 1) e0 (by simpa using hj)
    rwa [show i + (j + 1) = i + 1 + j from by omega] at hshift

theorem attachAt_self_not_cond (tt : TimetableNewsState) (stop : TimetableStop)
    (trip : InternalTrip) (i : Nat) (entry : InternalTripStop)
    (he : (attachAt tt stop trip i).stops[i]? = some entry) :
    (entry.stop.isNone && tt.is_own_station_name entry.info.name) = false := by
  unfold attachAt at he
  cases h0 : trip.stops[i]? with
  | none =>
    rw [h0] at he
    rw [h0] at he
    exact Option.noConfusion he
  | some entry0 =>
    rw [h0] at he
    dsimp only at he
    have hi : i < trip.stops.length := by
      by_contra hc
      rw [List.getElem?_eq_none (by omega)] at h0
      exact Option.noConfusion h0
    by_cases hc : entry0.stop.isNone && tt.is_own_station_name entry0.info.name
    · rw [if_pos hc] at he
      rw [List.getElem?_set_eq (by simpa using hi)] at he
      cases he
      rfl
    · rw [if_neg hc] at he
      rw [h0] at he
      cases he
      simpa using hc

theorem attachOnly_getElem?_of_not_cond (tt : TimetableNewsState)
    (stop : TimetableStop) (t r : InternalTrip) (i : Nat)
    (hao : AttachOnly tt stop t r) (entry : InternalTripStop)
    (he : t.stops[i]? = some entry)
    (hcond : (entry.stop.isNone && tt.is_own_station_name entry.info.name) = false) :
    r.stops[i]? = some entry := by
  obtain ⟨-, -, -, -, -, -, h7⟩ := hao
  rcases h7 i with heq | ⟨ts, hts, hnone, hown, hr⟩
  · rw [heq, he]
  · rw [he] at hts
    cases hts
    rw [hnone] at hcond
    simp [hown] at hcond

theorem attachOnly_getElem?_none (tt : TimetableNewsState)
    (stop : TimetableStop) (t r : InternalTrip) (i : Nat)
    (hao : AttachOnly tt stop t r)
    (he : t.stops[i]? = none) : r.stops[i]? = none := by
  obtain ⟨-, -, -, -, -, -, h7⟩ := hao
  rcases h7 i with heq | ⟨ts, hts, -, -, -⟩
  · rw [heq, he]
  · rw [he] at hts
    exact Option.noConfusion hts

theorem walkPath_false_idem (tt : TimetableNewsState) (live : Option Int)
    (stop : TimetableStop) (l : List ActualPathStop) :
    ∀ (trip : InternalTrip) (i : Nat),
    walkPath tt live false stop l (walkPath tt live false stop l trip i) i
      = walkPath tt live false stop l trip i := by
  induction l with
  | nil => intro trip i; rfl
  | cons aps rest ih =>
    intro trip i
    cases ht1 : (attachAt tt stop trip i).stops[i]? with
    | none =>
      have hinner : walkPath tt live false stop (aps :: rest) trip i
          = walkPath tt live false stop rest (attachAt tt stop trip i) i := by
        conv_lhs => rw [walkPath]
        rw [ht1]
        dsimp only
        unfold stepMismatch
        simp only [Bool.false_eq_true, if_false]
      rw [hinner]
      have hrec := ih (attachAt tt stop trip i) i
      set r := walkPath tt live false stop rest (attachAt tt stop trip i) i with hrdef
      have hri : r.stops[i]? = none :=
        attachOnly_getElem?_none tt stop _ _ i
          (walkPath_false_attachOnly tt live stop rest _ i) ht1
      have hatt2 : attachAt tt stop r i = r := by
        unfold attachAt
        rw [hri]
      rw [walkPath]
      rw [hatt2, hri]
      dsimp only
      unfold stepMismatch
      simp only [Bool.false_eq_true, if_false]
      exact hrec
    | some entry =>
      have hcond := attachAt_self_not_cond tt stop trip i entry ht1
      by_cases hn : aps.name = entry.info.name
      · have hinner : walkPath tt live false stop (aps :: rest) trip i
            = walkPath tt live false stop rest (attachAt tt stop trip i) (i + 1) := by
          conv_lhs => rw [walkPath]
          rw [ht1]
          dsimp only
          rw [if_pos hn]
          simp only [Bool.false_eq_true, if_false]
        rw [hinner]
        have hrec := ih (attachAt tt stop trip i) (i + 1)
        set r := walkPath tt live false stop rest (attachAt tt stop trip i) (i + 1) with hrdef
        have hri : r.stops[i]? = some entry :=
          attachOnly_getElem?_of_not_cond tt stop _ _ i
            (walkPath_false_attachOnly tt live stop rest _ (i + 1)) entry ht1 hcond
        have hatt2 : attachAt tt stop r i = r := by
          unfold attachAt
          rw [hri]
          dsimp only
          rw [if_neg (by simp [hcond])]
        rw [walkPath]
        rw [hatt2, hri]
        dsimp only
        rw [if_pos hn]
        simp only [Bool.false_eq_true, if_false]
        exact hrec
      · have hinner : walkPath tt live false stop (aps :: rest) trip i
            = walkPath tt live false stop rest (attachAt tt stop trip i) i := by
          conv_lhs => rw [walkPath]
          rw [ht1]
          dsimp only
          rw [if_neg hn]
          unfold stepMismatch
          simp only [Bool.false_eq_true, if_false]
        rw [hinner]
        have hrec := ih (attachAt tt stop trip i) i
        set r := walkPath tt live false stop rest (attachAt tt stop trip i) i with hrdef
        have hri : r.stops[i]? = some entry :=
          attachOnly_getElem?_of_not_cond tt stop _ _ i
            (walkPath_false_attachOnly tt live stop rest _ i) entry ht1 hcond
        have hatt2 : attachAt tt stop r i = r := by
          unfold attachAt
          rw [hri]
          dsimp only
          rw [if_neg (by simp [hcond])]
        rw [walkPath]
        rw [hatt2, hri]
        dsimp only
        rw [if_neg hn]
        unfold stepMismatch
        simp only [Bool.false_eq_true, if_false]
        exact hrec

/-- Claim C8 (amended): processing the same station snapshot twice in
immediate succession (same cache timestamp, no new data) leaves the trip
record after the second application identical to its state after the
first, provided no entry of the stop's arrival or departure neighbor path
carries a name matching the station's own name or aliases; when a
neighbor-path entry does alias-match the own station, the second pass can
additionally attach the concrete stop there (see the counterexample). -/
theorem c8_idempotent (tt : TimetableNewsState) (live : Option Int)
    (trip : InternalTrip) (stop : TimetableStop)
    (hpath : ∀ n ∈ (stop.arrival_path.getD []).map (·.name)
        ++ (stop.departure_path.getD []).map (·.name),
      tt.is_own_station_name n = false) :
    updateTripWithStop tt live (updateTripWithStop tt live trip stop) stop
      = updateTripWithStop tt live trip stop := by
  unfold updateTripWithStop
  cases hsu : shouldUpdate live trip.last_updated with
  | false =>
    have hlu : (walkPath tt live false stop (actualPathWithOwn tt stop) trip 0).last_updated
        = trip.last_updated :=
      (walkPath_false_attachOnly tt live stop (actualPathWithOwn tt stop) trip 0).2.2.2.1
    rw [hlu, hsu]
    exact walkPath_false_idem tt live stop (actualPathWithOwn tt stop) trip 0
  | true =>
    cases live with
    | none => simp [shouldUpdate] at hsu
    | some d =>
      obtain ⟨S1, S2, S3⟩ :=
        walkPath_true_spec tt (some d) stop (actualPathWithOwn tt stop) trip 0 (by omega)
      have hne : actualPathWithOwn tt stop ≠ [] := by
        unfold actualPathWithOwn
        simp
      have hlu := S2 hne
      rw [hlu]
      have hsu2 : shouldUpdate (some d) (some d) = true := by
        unfold shouldUpdate
        simp
      rw [hsu2]
      apply walkPath_true_noop
      · intro j e0 hj
        obtain ⟨e, he, hinfo, hsome⟩ := S1 j e0 hj
        refine ⟨e, by simpa using he, hinfo, ?_⟩
        rintro ⟨hnone, hown⟩
        have hmem : e0 ∈ actualPathWithOwn tt stop := List.getElem?_mem hj
        unfold actualPathWithOwn at hmem
        rcases List.mem_append.mp hmem with hmem1 | hdep
        · rcases List.mem_append.mp hmem1 with harr | hown_entry
          · have : tt.is_own_station_name e0.name = false := by
              apply hpath
              apply List.mem_append.mpr
              left
              exact List.mem_map.mpr ⟨e0, harr, rfl⟩
            rw [this] at hown
            exact Bool.noConfusion hown
          · have hname : e0.name = tt.station_name := by
              have : e0 = ⟨stop.status, tt.station_name⟩ := by simpa using hown_entry
              rw [this]
            have := hsome hname
            rw [hnone] at this
            exact Bool.noConfusion this
        · have : tt.is_own_station_name e0.name = false := by
            apply hpath
            apply List.mem_append.mpr
            right
            exact List.mem_map.mpr ⟨e0, hdep, rfl⟩
          rw [this] at hown
          exact Bool.noConfusion hown
      · intro hne2
        exact hlu

/-- Claim C8's counterexample against the original claim: processing the
same snapshot twice with the same cache timestamp changes the record the
second time — the alias-named path entry inserted by the first pass gets
the concrete stop attached by the second pass. -/
theorem c8_idempotent_counterexample :
    updateTripWithStop c8station (some 7)
        (updateTripWithStop c8station (some 7) c8trip c8stop) c8stop
      ≠ updateTripWithStop c8station (some 7) c8trip c8stop := by
  decide

/-- Claim C8's witness: the amended theorem at a stop with no neighbor
paths. -/
theorem c8_idempotent_witness :
    updateTripWithStop c3station (some 7)
        (updateTripWithStop c3station (some 7) c3trip c3stop) c3stop
      = updateTripWithStop c3station (some 7) c3trip c3stop :=
  c8_idempotent c3station (some 7) c3trip c3stop (by decide)

end OpenTransit

